import Mathlib

/-!
Shallow embedding of `src/content_aware_scale.py`.

External collaborators (cv2 capture/writer, the seam-carving `resize`
function, `cv2.cvtColor`) are modelled as parameters; the repository's own
control flow (`seam_carve` target dimensions, `process_frame`,
`process_batch`, the driving loop of `process_video`, progress reporting and
final statistics) is translated directly from the source.

Machine reals (Python floats) are modelled as rationals; Python's `/` raising
`ZeroDivisionError` on a zero denominator is modelled by an explicit guard
returning an error value; Python exceptions in general are modelled with
`Except`.
-/

namespace ContentAwareScale

/-- A raw frame: pixel buffer abstracted to its shape plus an identity tag
(`image.shape[0]` = height, `image.shape[1]` = width). -/
structure Frame where
  height : Nat
  width : Nat
  tag : Nat
deriving DecidableEq

/-- Python `int()` on a rational: truncation toward zero. -/
def pyInt (q : ℚ) : ℤ := if 0 ≤ q then ⌊q⌋ else ⌈q⌉

/-- `new_width = int(image.shape[1] * scale_x)` from `seam_carve` (line 13). -/
def seam_carve_new_width (width : Nat) (scale_x : ℚ) : ℤ :=
  pyInt ((width : ℚ) * scale_x)

/-- `new_height = int(image.shape[0] * scale_y)` from `seam_carve` (line 14). -/
def seam_carve_new_height (height : Nat) (scale_y : ℚ) : ℤ :=
  pyInt ((height : ℚ) * scale_y)

/-- `process_frame` (lines 24-32), with the external colour conversions and
the composed `seam_carve`-with-external-`resize` as parameters: convert, carve,
return `None` if the carved frame is `None`, else convert back. -/
def process_frame (cvtIn cvtOut : Frame → Frame) (carve : Frame → Option Frame)
    (frame : Frame) : Option Frame :=
  match carve (cvtIn frame) with
  | none => none
  | some c => some (cvtOut c)

/-- `process_batch` (lines 34-38): the sequential list comprehension. -/
def process_batch (pf : Frame → Option Frame) (frames : List Frame) :
    List (Option Frame) :=
  frames.map pf

/-! ### `pool.starmap` as an order-preserving parallel map

Workers may complete in any order; each task carries its batch index and its
result is stored into the slot for that index; the output is read out in index
order.  The completion order is the `order` argument. -/

/-- One worker completion: store the result for batch index `i`. -/
def starmapStep (f : α → β) (batch : List α) (slots : List (Option β))
    (i : Nat) : List (Option β) :=
  match batch[i]? with
  | some a => slots.set i (some (f a))
  | none => slots

/-- The slot array after all completions in `order`. -/
def starmapSlots (f : α → β) (batch : List α) (order : List Nat) :
    List (Option β) :=
  order.foldl (starmapStep f batch) (List.replicate batch.length none)

/-- The sequence `pool.starmap(f, batch)` returns, given worker completion
order `order`. -/
def starmap (f : α → β) (batch : List α) (order : List Nat) : List β :=
  (starmapSlots f batch order).reduceOption

/-! ### Exception-level model for a raising transform

`process_frame` installs no handler, so an exception raised by the carve
propagates; `Pool.starmap` re-raises a worker's exception in the caller, so
the whole batch call fails with it. -/

/-- An opaque Python exception value. -/
structure PyErr where
  code : Nat
deriving DecidableEq

/-- `process_frame` when the carve may raise: the exception propagates
(there is no `try`/`except` in lines 24-32). -/
def process_frameE (cvtIn cvtOut : Frame → Frame)
    (carveE : Frame → Except PyErr (Option Frame)) (frame : Frame) :
    Except PyErr (Option Frame) :=
  match carveE (cvtIn frame) with
  | .error e => .error e
  | .ok none => .ok none
  | .ok (some c) => .ok (some (cvtOut c))

/-- `pool.starmap` when a worker may raise: the call either returns every
result in order or re-raises a worker's exception in the caller. -/
def starmapE (f : α → Except PyErr β) (batch : List α) :
    Except PyErr (List β) :=
  batch.mapM f

/-! ### The driving loop of `process_video` -/

/-- `f"{x:.2f}"`: the value printed with two decimal digits. -/
def fmt2 (q : ℚ) : ℚ := (round (q * 100) : ℚ) / 100

/-- Observable effects of a run: frames written to `out` in order, lines
appended to the progress file in order (the file is opened once with mode
`'w'`, so its content after the run is exactly this list), the counter
`total_processed_frames`, and — as bookkeeping for stating batch-boundary
properties — the successive buffers handed to `pool.starmap`. -/
structure RunOutput where
  written : List Frame
  reports : List ℚ
  totalProcessed : Nat
  batches : List (List Frame)
deriving DecidableEq

/-- The write-back loop over one starmap result (lines 94-97 / 103-106):
`for processed_frame in processed_frames: if processed_frame is not None:
out.write(processed_frame); total_processed_frames += 1`. -/
def writeLoop (processed : List (Option Frame)) (acc : RunOutput) : RunOutput :=
  processed.foldl
    (fun a r =>
      match r with
      | some fr => { a with written := a.written ++ [fr],
                            totalProcessed := a.totalProcessed + 1 }
      | none => a)
    acc

/-- Process one buffer through the pool and write the results back
(lines 93-97 and 102-106, which are textually identical). -/
def flush (pf : Frame → Option Frame) (buf : List Frame) (acc : RunOutput) :
    RunOutput :=
  writeLoop (buf.map pf) { acc with batches := acc.batches ++ [buf] }

/-- The `while True` loop of `process_video` (lines 89-111).  `rest` is what
`cap.read()` will still deliver, `buf` is `frame_buffer`, `pos` is the number
of frames read so far (`cv2.CAP_PROP_POS_FRAMES`).  A zero `total_frames`
makes line 110 raise `ZeroDivisionError`, modelled as `Except.error` carrying
the effects performed so far. -/
def streamLoop (pf : Frame → Option Frame) (total : Nat) :
    List Frame → List Frame → Nat → RunOutput → Except RunOutput RunOutput
  | [], buf, _, acc =>
      .ok (if buf.isEmpty then acc else flush pf buf acc)
  | f :: rest, buf, pos, acc =>
      let buf1 := buf ++ [f]
      let st := if 32 ≤ buf1.length then ([], flush pf buf1 acc) else (buf1, acc)
      if total = 0 then
        .error st.2
      else
        streamLoop pf total rest st.1 (pos + 1)
          { st.2 with
            reports := st.2.reports ++
              [fmt2 ((((pos + 1 : Nat) : ℚ) / (total : ℚ)) * 100)] }

/-- The `cv2.VideoCapture` handle: the frames it can deliver and the current
read position (`CAP_PROP_POS_FRAMES`). -/
structure Capture where
  frames : List Frame
  pos : Nat
deriving DecidableEq

/-- `cap.read()`: the next frame (or failure) and the advanced handle. -/
def Capture.read (c : Capture) : Option Frame × Capture :=
  match c.frames[c.pos]? with
  | some f => (some f, { c with pos := c.pos + 1 })
  | none => (none, c)

/-- `cap.set(cv2.CAP_PROP_POS_FRAMES, p)`. -/
def Capture.seek (c : Capture) (p : Nat) : Capture := { c with pos := p }

/-- Outcome of a run of `process_video` (from line 53 on, the source already
opened): early return at the first-frame read (lines 57-59), early return at
the first-frame carve (lines 64-66), an escaped `ZeroDivisionError` from
line 110, or normal completion. -/
inductive RunResult where
  | failedFirstRead : RunResult
  | failedFirstCarve : RunResult
  | crashed : RunOutput → RunResult
  | done : RunOutput → RunResult
deriving DecidableEq

/-- The effects of a result (empty for the early returns). -/
def RunResult.out : RunResult → RunOutput
  | .failedFirstRead => ⟨[], [], 0, []⟩
  | .failedFirstCarve => ⟨[], [], 0, []⟩
  | .crashed o => o
  | .done o => o

/-- Whether the run reached line 119 (normal completion). -/
def RunResult.isDone : RunResult → Bool
  | .done _ => true
  | _ => false

/-- `process_video` (lines 53-117): probe the first frame, carve it
synchronously to get the output dimensions, rewind the capture to frame 0
(line 79), then run the streaming loop over everything the capture delivers
from position 0.  `probeCarve` is `seam_carve ∘ cvtColor` on the probe path
(its result is used only for the sink's dimensions), `pf` is `process_frame`
with the scale parameters applied, `total` is `CAP_PROP_FRAME_COUNT`. -/
def process_video (pf : Frame → Option Frame) (probeCarve : Frame → Option Frame)
    (total : Nat) (frames : List Frame) : RunResult :=
  let c0 : Capture := ⟨frames, 0⟩
  match c0.read with
  | (none, _) => .failedFirstRead
  | (some f0, c1) =>
    match probeCarve f0 with
    | none => .failedFirstCarve
    | some _ =>
      let c2 := c1.seek 0
      match streamLoop pf total (c2.frames.drop c2.pos) [] c2.pos ⟨[], [], 0, []⟩ with
      | .ok r => .done r
      | .error r => .crashed r

/-- The final statistics (lines 121-122):
`average_fps = total_processed_frames / total_time if total_time > 0 else 0`,
`average_spf = total_time / total_processed_frames if total_processed_frames > 0 else 0`. -/
def runStats (totalProcessed : Nat) (totalTime : ℚ) : ℚ × ℚ :=
  (if 0 < totalTime then (totalProcessed : ℚ) / totalTime else 0,
   if 0 < totalProcessed then totalTime / (totalProcessed : ℚ) else 0)

/-! ### Derived descriptions of the loop, for the proofs -/

/-- What one starmap result contributes to `out`: the non-`None` results in
order. -/
def batchWrites (pf : Frame → Option Frame) (buf : List Frame) : List Frame :=
  (buf.map pf).reduceOption

/-- The buffers the loop hands to `pool.starmap`, in order: a batch fires as
soon as the buffer reaches 32 frames, and a nonempty leftover buffer is
flushed at end of stream. -/
def driverBatches : List Frame → List Frame → List (List Frame)
  | [], buf => if buf.isEmpty then [] else [buf]
  | f :: rest, buf =>
      if 32 ≤ (buf ++ [f]).length then (buf ++ [f]) :: driverBatches rest []
      else driverBatches rest (buf ++ [f])

/-- The batch sizes of a stream of `n` frames under capacity 32. -/
def chunkSizes (n : Nat) : List Nat :=
  List.replicate (n / 32) 32 ++ (if n % 32 = 0 then [] else [n % 32])

/-- The progress lines the loop appends while reading `n` frames starting
from position `pos`. -/
def loopReports (total : Nat) (pos n : Nat) : List ℚ :=
  (List.range n).map
    (fun i => fmt2 ((((pos + i + 1 : Nat) : ℚ) / (total : ℚ)) * 100))

/-! ### Helper lemmas: the starmap model -/

theorem starmapStep_length (f : α → β) (batch : List α) (slots : List (Option β))
    (i : Nat) : (starmapStep f batch slots i).length = slots.length := by
  unfold starmapStep
  cases batch[i]? <;> simp

theorem foldl_starmapStep_length (f : α → β) (batch : List α) :
    ∀ (order : List Nat) (slots : List (Option β)),
      (order.foldl (starmapStep f batch) slots).length = slots.length := by
  intro order
  induction order with
  | nil => intro slots; rfl
  | cons i order ih =>
      intro slots
      rw [List.foldl_cons, ih, starmapStep_length]

theorem foldl_starmapStep_getElem (f : α → β) (batch : List α) :
    ∀ (order : List Nat) (slots : List (Option β)) (j : Nat) (a : α),
      slots.length = batch.length → batch[j]? = some a →
      (order.foldl (starmapStep f batch) slots)[j]? =
        if j ∈ order then some (some (f a)) else slots[j]? := by
  intro order
  induction order with
  | nil => intro slots j a _ _; simp
  | cons i order ih =>
      intro slots j a hlen hj
      rw [List.foldl_cons,
        ih (starmapStep f batch slots i) j a
          (by rw [starmapStep_length]; exact hlen) hj]
      by_cases hmem : j ∈ order
      · simp [hmem]
      · by_cases hij : i = j
        · subst hij
          have hlt : i < slots.length := by
            rw [hlen]
            exact (List.getElem?_eq_some_iff.mp hj).1
          simp [hmem, starmapStep, hj, List.getElem?_set_self hlt]
        · have hstep : (starmapStep f batch slots i)[j]? = slots[j]? := by
            unfold starmapStep
            cases batch[i]? <;> simp [List.getElem?_set_ne hij]
          simp [hmem, hstep, Ne.symm hij]

theorem reduceOption_map_some (l : List β) : (l.map some).reduceOption = l := by
  induction l with
  | nil => rfl
  | cons x l ih => simp [ih]

/-- Under any completion order covering the batch, the slot array ends up
holding exactly the in-order results. -/
theorem starmapSlots_eq_map (f : α → β) (batch : List α) (order : List Nat)
    (hperm : order.Perm (List.range batch.length)) :
    starmapSlots f batch order = (batch.map f).map some := by
  have hlen : (starmapSlots f batch order).length = batch.length := by
    rw [starmapSlots, foldl_starmapStep_length]; simp
  apply List.ext_getElem?
  intro j
  by_cases hj : j < batch.length
  · have ha : batch[j]? = some batch[j] := List.getElem?_eq_getElem hj
    have hmem : j ∈ order := hperm.mem_iff.mpr (List.mem_range.mpr hj)
    rw [starmapSlots, foldl_starmapStep_getElem f batch order _ j batch[j]
      (by simp) ha, if_pos hmem]
    simp [List.getElem?_eq_getElem, hj]
  · rw [List.getElem?_eq_none (by omega : (starmapSlots f batch order).length ≤ j),
      List.getElem?_eq_none (by simp; omega)]

theorem starmap_eq_map (f : α → β) (batch : List α) (order : List Nat)
    (hperm : order.Perm (List.range batch.length)) :
    starmap f batch order = batch.map f := by
  rw [starmap, starmapSlots_eq_map f batch order hperm, reduceOption_map_some]

/-! ### Helper lemmas: batching -/

theorem driverBatches_join (rest : List Frame) :
    ∀ buf, (driverBatches rest buf).join = buf ++ rest := by
  induction rest with
  | nil =>
      intro buf
      unfold driverBatches
      cases buf <;> simp
  | cons f rest ih =>
      intro buf
      unfold driverBatches
      by_cases h32 : 32 ≤ (buf ++ [f]).length
      · rw [if_pos h32]
        simp [ih]
      · rw [if_neg h32]
        simp [ih]

theorem chunkSizes_of_lt (n : Nat) (h : n < 32) :
    chunkSizes n = if n = 0 then [] else [n] := by
  unfold chunkSizes
  rw [Nat.div_eq_of_lt h, Nat.mod_eq_of_lt h]
  simp

theorem chunkSizes_add32 (n : Nat) : chunkSizes (n + 32) = 32 :: chunkSizes n := by
  unfold chunkSizes
  rw [Nat.add_div_right n (by norm_num), Nat.add_mod_right n 32]
  simp [List.replicate_succ]

theorem driverBatches_map_length (rest : List Frame) :
    ∀ buf, buf.length < 32 →
      (driverBatches rest buf).map List.length = chunkSizes (buf.length + rest.length) := by
  induction rest with
  | nil =>
      intro buf hb
      unfold driverBatches
      simp only [List.length_nil, Nat.add_zero]
      rw [chunkSizes_of_lt buf.length hb]
      cases h : buf.isEmpty <;>
        simp_all [List.isEmpty_iff, List.length_eq_zero]
  | cons f rest ih =>
      intro buf hb
      unfold driverBatches
      by_cases h32 : 32 ≤ (buf ++ [f]).length
      · have hb31 : buf.length = 31 := by simp at h32; omega
        have hlen : buf.length + (f :: rest).length = rest.length + 32 := by
          simp [hb31]; omega
        rw [if_pos h32, hlen, chunkSizes_add32]
        simp [ih [] (by norm_num), List.length_append, hb31]
      · have hlen : buf.length + (f :: rest).length = (buf ++ [f]).length + rest.length := by
          simp; omega
        rw [if_neg h32, hlen]
        exact ih (buf ++ [f]) (by simp at h32 ⊢; omega)

/-- The first frame of the first batch is the head of a nonempty buffer. -/
theorem driverBatches_first (rest : List Frame) :
    ∀ (x : Frame) (bs : List Frame),
      ((driverBatches rest (x :: bs)).head?.bind List.head?) = some x := by
  induction rest with
  | nil => intro x bs; simp [driverBatches]
  | cons f rest ih =>
      intro x bs
      unfold driverBatches
      by_cases h32 : 32 ≤ ((x :: bs) ++ [f]).length
      · rw [if_pos h32]
        simp
      · rw [if_neg h32]
        exact ih x (bs ++ [f])

/-! ### Helper lemmas: the write-back loop and the stream loop -/

theorem writeLoop_cons_none (processed : List (Option Frame)) (acc : RunOutput) :
    writeLoop (none :: processed) acc = writeLoop processed acc := rfl

theorem writeLoop_cons_some (fr : Frame) (processed : List (Option Frame))
    (acc : RunOutput) :
    writeLoop (some fr :: processed) acc =
      writeLoop processed
        { acc with written := acc.written ++ [fr],
                   totalProcessed := acc.totalProcessed + 1 } := rfl

theorem writeLoop_eq (processed : List (Option Frame)) :
    ∀ acc, writeLoop processed acc =
      { acc with written := acc.written ++ processed.reduceOption,
                 totalProcessed := acc.totalProcessed + processed.reduceOption.length } := by
  induction processed with
  | nil => intro acc; simp [writeLoop]
  | cons r processed ih =>
      intro acc
      cases r with
      | none =>
          rw [writeLoop_cons_none, ih]
          simp
      | some fr =>
          rw [writeLoop_cons_some, ih]
          simp [List.append_assoc]
          omega

theorem flush_eq (pf : Frame → Option Frame) (buf : List Frame) (acc : RunOutput) :
    flush pf buf acc =
      { written := acc.written ++ batchWrites pf buf,
        reports := acc.reports,
        totalProcessed := acc.totalProcessed + (batchWrites pf buf).length,
        batches := acc.batches ++ [buf] } := by
  rw [flush, writeLoop_eq, batchWrites]

theorem loopReports_succ (total pos n : Nat) :
    loopReports total pos (n + 1) =
      fmt2 ((((pos + 1 : Nat) : ℚ) / (total : ℚ)) * 100) ::
        loopReports total (pos + 1) n := by
  unfold loopReports
  rw [List.range_succ_eq_map]
  simp only [List.map_cons, List.map_map]
  simp only [List.cons.injEq]
  constructor
  · norm_num
  · apply List.map_congr_left
    intro i _
    simp only [Function.comp_apply]
    congr 2
    push_cast
    ring

/-- Full characterization of the streaming loop when `total_frames` is
nonzero: it terminates normally, the written frames are the per-batch
non-`None` results in order, one progress line is appended per frame read,
and the batches are the capacity-32 chunks of the remaining stream. -/
theorem streamLoop_eq (pf : Frame → Option Frame) (total : Nat) (ht : total ≠ 0)
    (rest : List Frame) :
    ∀ (buf : List Frame) (pos : Nat) (acc : RunOutput),
      streamLoop pf total rest buf pos acc =
        .ok ⟨acc.written ++ ((driverBatches rest buf).map (batchWrites pf)).join,
             acc.reports ++ loopReports total pos rest.length,
             acc.totalProcessed + ((driverBatches rest buf).map (batchWrites pf)).join.length,
             acc.batches ++ driverBatches rest buf⟩ := by
  induction rest with
  | nil =>
      intro buf pos acc
      simp only [streamLoop, driverBatches, loopReports, List.range_zero, List.map_nil,
        List.length_nil]
      cases hb : buf.isEmpty
      · rw [if_neg (by simp [hb]), if_neg (by simp [hb]), flush_eq]
        simp
      · rw [if_pos (by simp [hb]), if_pos (by simp [hb])]
        simp
  | cons f rest ih =>
      intro buf pos acc
      simp only [streamLoop, driverBatches, List.length_cons]
      rw [if_neg ht, loopReports_succ]
      by_cases h32 : 32 ≤ (buf ++ [f]).length
      · rw [if_pos h32, if_pos h32]
        rw [ih, flush_eq]
        simp [List.append_assoc]
        omega
      · rw [if_neg h32, if_neg h32]
        rw [ih]
        simp [List.append_assoc]

/-- A nonempty stream with a successful probe and a nonzero frame-count
metadata runs to completion, and every observable effect is determined by
the chunking of the full, rewound stream. -/
theorem process_video_eq_done (pf probeCarve : Frame → Option Frame)
    (total : Nat) (ht : total ≠ 0) (f0 c0 : Frame) (rest : List Frame)
    (hp : probeCarve f0 = some c0) :
    process_video pf probeCarve total (f0 :: rest) =
      .done ⟨((driverBatches (f0 :: rest) []).map (batchWrites pf)).join,
             loopReports total 0 (rest.length + 1),
             ((driverBatches (f0 :: rest) []).map (batchWrites pf)).join.length,
             driverBatches (f0 :: rest) []⟩ := by
  simp only [process_video, Capture.read, Capture.seek, List.getElem?_cons_zero]
  rw [hp]
  simp only [List.drop_zero]
  rw [streamLoop_eq pf total ht]
  simp

theorem fmt2_mono {a b : ℚ} (hab : a ≤ b) : fmt2 a ≤ fmt2 b := by
  unfold fmt2
  have h1 : round (a * 100) ≤ round (b * 100) := by
    rw [round_eq, round_eq]
    exact Int.floor_mono (by linarith)
  have h2 : ((round (a * 100) : ℤ) : ℚ) ≤ ((round (b * 100) : ℤ) : ℚ) := by
    exact_mod_cast h1
  linarith

theorem fmt2_100 : fmt2 100 = 100 := by
  unfold fmt2
  norm_num

/-! ### Concrete instances used by witnesses and counterexamples -/

/-- A transform that always succeeds (identity stand-in). -/
def pfOk : Frame → Option Frame := fun f => some f

/-- An 8×8 frame with tag `i`. -/
def f8 (i : Nat) : Frame := ⟨8, 8, i⟩

/-- A carve that raises on the frame tagged 1 and succeeds otherwise. -/
def carveRaising : Frame → Except PyErr (Option Frame) :=
  fun f => if f.tag = 1 then .error ⟨7⟩ else .ok (some f)

/-- A carve that returns `None` on the frame tagged 1 and succeeds otherwise. -/
def carveNoneAt1 : Frame → Option Frame :=
  fun f => if f.tag = 1 then none else some f

/-- `carveNoneAt1` wrapped as a never-raising carve. -/
def carveNoneAt1E : Frame → Except PyErr (Option Frame) :=
  fun f => .ok (carveNoneAt1 f)

/-- `mapM` over `Except` returns all results when no element raises. -/
theorem mapM_ok_of_forall (fE : α → Except PyErr β) (g : α → β) (l : List α)
    (h : ∀ a ∈ l, fE a = .ok (g a)) : l.mapM fE = .ok (l.map g) := by
  induction l with
  | nil => rfl
  | cons a l ih =>
      rw [List.mapM_cons, h a (by simp), ih (fun b hb => h b (by simp [hb]))]
      rfl

/-! ### C1 -/

/-- C1: for every batch and every worker completion order, the sequence
returned by `pool.starmap(process_frame, batch)` has exactly the batch's
length, its entry at position `i` is the transform of the frame at position
`i`, and it coincides with the sequential `process_batch` comprehension —
completion order is never observable. -/
theorem claim1_starmap_order_preserved (pf : Frame → Option Frame)
    (batch : List Frame) (order : List Nat)
    (hperm : order.Perm (List.range batch.length)) :
    starmap pf batch order = process_batch pf batch ∧
    (starmap pf batch order).length = batch.length ∧
    ∀ i (hi : i < batch.length),
      (starmap pf batch order)[i]? = some (pf (batch.get ⟨i, hi⟩)) := by
  have hm := starmap_eq_map pf batch order hperm
  refine ⟨hm, by rw [hm]; simp, ?_⟩
  intro i hi
  rw [hm]
  simp [List.getElem?_map, List.getElem?_eq_getElem hi]

theorem claim1_witness :
    ([2, 0, 1] : List Nat).Perm (List.range ([f8 0, f8 1, f8 2] : List Frame).length) ∧
    starmap pfOk [f8 0, f8 1, f8 2] [2, 0, 1] = process_batch pfOk [f8 0, f8 1, f8 2] :=
  ⟨by decide,
   (claim1_starmap_order_preserved pfOk [f8 0, f8 1, f8 2] [2, 0, 1] (by decide)).1⟩

/-! ### C4 -/

/-- C4 as stated is false: `seam_carve` computes the target width with
Python `int()` (truncation), so a 3-pixel-wide frame at `scale_x = 3/5`
targets width 1, while `round(3 * 3/5) = round(1.8) = 2`. -/
theorem claim4_counterexample :
    seam_carve_new_width 3 (3 / 5) = 1 ∧
    round (((3 : Nat) : ℚ) * (3 / 5)) = 2 ∧ (1 : ℤ) ≠ 2 := by
  refine ⟨?_, ?_, by decide⟩
  · unfold seam_carve_new_width pyInt
    rw [if_pos (by norm_num), Int.floor_eq_iff]
    norm_num
  · rw [round_eq, Int.floor_eq_iff]
    norm_num

/-- C4 amended: for nonnegative scale factors the transformation targets
output dimensions `⌊width * scale_x⌋ × ⌊height * scale_y⌋` (Python `int()`
truncation), not `round`. -/
theorem claim4_amended (width height : Nat) (scale_x scale_y : ℚ)
    (hx : 0 ≤ scale_x) (hy : 0 ≤ scale_y) :
    seam_carve_new_width width scale_x = ⌊(width : ℚ) * scale_x⌋ ∧
    seam_carve_new_height height scale_y = ⌊(height : ℚ) * scale_y⌋ := by
  constructor
  · unfold seam_carve_new_width pyInt
    rw [if_pos (mul_nonneg (by positivity) hx)]
  · unfold seam_carve_new_height pyInt
    rw [if_pos (mul_nonneg (by positivity) hy)]

theorem claim4_witness :
    (0 : ℚ) ≤ 1 / 2 ∧ (0 : ℚ) ≤ 1 ∧
    seam_carve_new_width 640 (1 / 2) = ⌊(640 : ℚ) * (1 / 2)⌋ ∧
    seam_carve_new_height 480 1 = ⌊(480 : ℚ) * 1⌋ ∧
    seam_carve_new_width 640 (1 / 2) = 320 ∧
    seam_carve_new_height 480 1 = 480 :=
  ⟨by norm_num, by norm_num,
   (claim4_amended 640 480 (1 / 2) 1 (by norm_num) (by norm_num)).1,
   (claim4_amended 640 480 (1 / 2) 1 (by norm_num) (by norm_num)).2,
   by rw [(claim4_amended 640 480 (1 / 2) 1 (by norm_num) (by norm_num)).1,
        Int.floor_eq_iff]; norm_num,
   by rw [(claim4_amended 640 480 (1 / 2) 1 (by norm_num) (by norm_num)).2,
        Int.floor_eq_iff]; norm_num⟩

/-! ### C6 -/

/-- C6 as stated is false for the "or raises" case: `process_frame` installs
no handler, so a carve that raises makes the whole `pool.starmap` batch call
fail instead of yielding a per-position failure marker. -/
theorem claim6_counterexample :
    carveRaising (id (f8 1)) = .error ⟨7⟩ ∧
    starmapE (process_frameE id id carveRaising) [f8 0, f8 1] = .error ⟨7⟩ :=
  ⟨rfl, rfl⟩

/-- C6 amended: when the transform merely *returns* a failure (`None`) at
position `k` and no frame raises, the batch call succeeds, position `k`
alone carries the failure marker, every other position's result is
unaffected and in order, and the driver's write-back skips exactly the
`None` positions.  A transform that *raises* instead fails the batch call. -/
theorem claim6_amended (cvtIn cvtOut : Frame → Frame)
    (carve : Frame → Option Frame) (carveE : Frame → Except PyErr (Option Frame))
    (batch : List Frame)
    (hok : ∀ f ∈ batch, carveE (cvtIn f) = .ok (carve (cvtIn f)))
    (k : Nat) (hk : k < batch.length)
    (hfail : carve (cvtIn (batch.get ⟨k, hk⟩)) = none) :
    starmapE (process_frameE cvtIn cvtOut carveE) batch =
      .ok (process_batch (process_frame cvtIn cvtOut carve) batch) ∧
    (process_batch (process_frame cvtIn cvtOut carve) batch).length = batch.length ∧
    (process_batch (process_frame cvtIn cvtOut carve) batch)[k]? = some none ∧
    (∀ i (hi : i < batch.length), i ≠ k →
      (process_batch (process_frame cvtIn cvtOut carve) batch)[i]? =
        some (process_frame cvtIn cvtOut carve (batch.get ⟨i, hi⟩))) ∧
    batchWrites (process_frame cvtIn cvtOut carve) batch =
      (process_batch (process_frame cvtIn cvtOut carve) batch).reduceOption := by
  refine ⟨?_, by simp [process_batch], ?_, ?_, rfl⟩
  · apply mapM_ok_of_forall
    intro f hf
    unfold process_frameE process_frame
    rw [hok f hf]
    cases carve (cvtIn f) <;> rfl
  · unfold process_batch
    rw [List.getElem?_map, List.getElem?_eq_getElem hk]
    simp only [Option.map_some']
    rw [show batch[k] = batch.get ⟨k, hk⟩ from rfl]
    unfold process_frame
    rw [hfail]
  · intro i hi _
    unfold process_batch
    rw [List.getElem?_map, List.getElem?_eq_getElem hi]
    rfl

theorem claim6_witness :
    (∀ f ∈ ([f8 0, f8 1, f8 2] : List Frame),
      carveNoneAt1E (id f) = .ok (carveNoneAt1 (id f))) ∧
    carveNoneAt1 (id (f8 1)) = none ∧
    starmapE (process_frameE id id carveNoneAt1E) [f8 0, f8 1, f8 2] =
      .ok (process_batch (process_frame id id carveNoneAt1) [f8 0, f8 1, f8 2]) ∧
    (process_batch (process_frame id id carveNoneAt1) [f8 0, f8 1, f8 2])[1]? =
      some none :=
  ⟨fun f _ => rfl, rfl,
   (claim6_amended id id carveNoneAt1 carveNoneAt1E [f8 0, f8 1, f8 2]
      (fun f _ => rfl) 1 (by decide) rfl).1,
   (claim6_amended id id carveNoneAt1 carveNoneAt1E [f8 0, f8 1, f8 2]
      (fun f _ => rfl) 1 (by decide) rfl).2.2.1⟩

/-! ### C2 -/

/-- C2 as stated is false: the progress file is opened once with mode `'w'`
and every report then *appends* a line (line 111 writes to the same open
handle), so after the second report of a two-frame run the sink holds the
two lines `50.00` and `100.00`, not a single line. -/
theorem claim2_counterexample :
    process_video pfOk pfOk 2 [f8 0, f8 1] =
      .done ⟨[f8 0, f8 1], [50, 100], 2, [[f8 0, f8 1]]⟩ ∧
    ([(50 : ℚ), 100]).length ≠ 1 := by
  refine ⟨?_, by norm_num⟩
  rw [process_video_eq_done pfOk pfOk 2 (by norm_num) (f8 0) (f8 0) [f8 1] rfl]
  simp only [RunResult.done.injEq, RunOutput.mk.injEq]
  refine ⟨by decide, ?_, by decide, by decide⟩
  simp [loopReports, List.range_succ]
  norm_num [fmt2, round_eq]

/-- C2 amended: the sink is truncated once when the progress file is opened,
and each report appends one two-decimal line, so after the run the content
is one line per frame read, in order — the `i`-th line being the percentage
after reading frame `i+1` — rather than a single overwritten line. -/
theorem claim2_amended (pf probe : Frame → Option Frame) (total : Nat)
    (ht : total ≠ 0) (f0 c0 : Frame) (rest : List Frame)
    (hp : probe f0 = some c0) :
    (process_video pf probe total (f0 :: rest)).out.reports =
      (List.range (f0 :: rest).length).map
        (fun i => fmt2 ((((i + 1 : Nat) : ℚ) / (total : ℚ)) * 100)) := by
  rw [process_video_eq_done pf probe total ht f0 c0 rest hp]
  simp [RunResult.out, loopReports]

theorem claim2_witness :
    (2 : Nat) ≠ 0 ∧ pfOk (f8 0) = some (f8 0) ∧
    (process_video pfOk pfOk 2 [f8 0, f8 1]).out.reports =
      (List.range ([f8 0, f8 1] : List Frame).length).map
        (fun i => fmt2 ((((i + 1 : Nat) : ℚ) / ((2 : Nat) : ℚ)) * 100)) :=
  ⟨by norm_num, rfl, claim2_amended pfOk pfOk 2 (by norm_num) (f8 0) (f8 0) [f8 1] rfl⟩

/-! ### C3 -/

/-- C3 as stated is false: with `total_frames == 0` but a readable first
frame, the probe *succeeds* (the run does not end Failed at the probe) and
the very first progress computation on line 110 divides by zero — there is
no 0% fallback in the code. -/
theorem claim3_counterexample :
    process_video pfOk pfOk 0 [f8 0] = .crashed ⟨[], [], 0, []⟩ := rfl

/-- C3 amended: when the source reports zero total frames the run never
completes and no progress line is ever written: either the first-frame read
or carve fails (run ends at the probe, before the progress file is used), or
a frame is readable and the first progress computation raises
`ZeroDivisionError` before writing anything. -/
theorem claim3_amended (pf probe : Frame → Option Frame) (frames : List Frame) :
    process_video pf probe 0 frames = .failedFirstRead ∨
    process_video pf probe 0 frames = .failedFirstCarve ∨
    process_video pf probe 0 frames = .crashed ⟨[], [], 0, []⟩ := by
  cases frames with
  | nil => exact Or.inl rfl
  | cons f0 rest =>
      cases hp : probe f0 with
      | none =>
          refine Or.inr (Or.inl ?_)
          simp [process_video, Capture.read, hp]
      | some c =>
          refine Or.inr (Or.inr ?_)
          simp [process_video, Capture.read, Capture.seek, hp, streamLoop]

/-! ### C5 -/

/-- C5 as stated is false: progress is reported once per *frame read*, not
once per batch boundary — a three-frame run (one batch, plus the probe)
writes three progress lines where the claim predicts two. -/
theorem claim5_counterexample :
    process_video pfOk pfOk 3 [f8 0, f8 1, f8 2] =
      .done ⟨[f8 0, f8 1, f8 2], [3333 / 100, 6667 / 100, 100], 3,
             [[f8 0, f8 1, f8 2]]⟩ ∧
    (3 : Nat) ≠ 1 + 1 := by
  refine ⟨?_, by norm_num⟩
  rw [process_video_eq_done pfOk pfOk 3 (by norm_num) (f8 0) (f8 0) [f8 1, f8 2] rfl]
  simp only [RunResult.done.injEq, RunOutput.mk.injEq]
  refine ⟨by decide, ?_, by decide, by decide⟩
  simp [loopReports, List.range_succ]
  norm_num [fmt2, round_eq]

/-- C5 amended: the progress report runs exactly once per successfully read
frame during streaming — never once per batch boundary, with no extra report
after the probe or after the final flush — so a stream of `T` frames yields
exactly `T` reports. -/
theorem claim5_amended (pf probe : Frame → Option Frame) (total : Nat)
    (ht : total ≠ 0) (f0 c0 : Frame) (rest : List Frame)
    (hp : probe f0 = some c0) :
    (process_video pf probe total (f0 :: rest)).out.reports.length =
      (f0 :: rest).length := by
  rw [process_video_eq_done pf probe total ht f0 c0 rest hp]
  simp [RunResult.out, loopReports]

theorem claim5_witness :
    (3 : Nat) ≠ 0 ∧ pfOk (f8 0) = some (f8 0) ∧
    (process_video pfOk pfOk 3 [f8 0, f8 1, f8 2]).out.reports.length =
      ([f8 0, f8 1, f8 2] : List Frame).length :=
  ⟨by norm_num, rfl,
   claim5_amended pfOk pfOk 3 (by norm_num) (f8 0) (f8 0) [f8 1, f8 2] rfl⟩

/-! ### C7 -/

/-- C7: every stream is partitioned into consecutive batches of exactly 32
frames followed by one final batch of `T mod 32` frames when nonzero, in
source order, and every batch — the final short one included — is processed
by the same transform-and-write-back path. -/
theorem claim7_batching (pf probe : Frame → Option Frame) (total : Nat)
    (ht : total ≠ 0) (f0 c0 : Frame) (rest : List Frame)
    (hp : probe f0 = some c0) :
    (process_video pf probe total (f0 :: rest)).isDone = true ∧
    (process_video pf probe total (f0 :: rest)).out.batches.join = f0 :: rest ∧
    (process_video pf probe total (f0 :: rest)).out.batches.map List.length =
      List.replicate ((f0 :: rest).length / 32) 32 ++
        (if (f0 :: rest).length % 32 = 0 then [] else [(f0 :: rest).length % 32]) ∧
    (process_video pf probe total (f0 :: rest)).out.written =
      ((process_video pf probe total (f0 :: rest)).out.batches.map (batchWrites pf)).join := by
  rw [process_video_eq_done pf probe total ht f0 c0 rest hp]
  refine ⟨rfl, ?_, ?_, rfl⟩
  · simp [RunResult.out, driverBatches_join]
  · have h := driverBatches_map_length (f0 :: rest) [] (by norm_num)
    simp only [List.length_nil, Nat.zero_add, chunkSizes] at h
    simpa [RunResult.out] using h

/-- The 99 frames tagged 1..99 that follow the probe frame in the C7
witness stream of 100 frames. -/
def frames99 : List Frame := (List.range 99).map (fun i => f8 (i + 1))

theorem claim7_witness :
    (100 : Nat) ≠ 0 ∧ pfOk (f8 0) = some (f8 0) ∧
    (process_video pfOk pfOk 100 (f8 0 :: frames99)).out.batches.map List.length =
      List.replicate ((f8 0 :: frames99).length / 32) 32 ++
        (if (f8 0 :: frames99).length % 32 = 0 then []
         else [(f8 0 :: frames99).length % 32]) ∧
    List.replicate ((f8 0 :: frames99).length / 32) 32 ++
        (if (f8 0 :: frames99).length % 32 = 0 then []
         else [(f8 0 :: frames99).length % 32]) =
      [32, 32, 32, 4] :=
  ⟨by norm_num, rfl,
   (claim7_batching pfOk pfOk 100 (by norm_num) (f8 0) (f8 0) frames99 rfl).2.2.1,
   by decide⟩

/-! ### C8 -/

/-- C8: when the reported total equals the stream length `T > 0`, the
sequence of percentages written over the run is monotonically non-decreasing
and the last one is 100.00. -/
theorem claim8_progress (pf probe : Frame → Option Frame) (f0 c0 : Frame)
    (rest : List Frame) (hp : probe f0 = some c0) :
    ((process_video pf probe (f0 :: rest).length (f0 :: rest)).out.reports).Pairwise
      (· ≤ ·) ∧
    (process_video pf probe (f0 :: rest).length (f0 :: rest)).out.reports.getLast? =
      some 100 := by
  have ht : (f0 :: rest).length ≠ 0 := by simp
  rw [process_video_eq_done pf probe _ ht f0 c0 rest hp]
  have htQ : (0 : ℚ) < (((f0 :: rest).length : Nat) : ℚ) := by
    simp only [List.length_cons]
    positivity
  constructor
  · simp only [RunResult.out, loopReports]
    rw [List.pairwise_map]
    apply (List.pairwise_lt_range _).imp
    intro a b hab
    apply fmt2_mono
    have h1 : ((0 + a + 1 : Nat) : ℚ) ≤ ((0 + b + 1 : Nat) : ℚ) := by
      have h1n : 0 + a + 1 ≤ 0 + b + 1 := by omega
      exact_mod_cast h1n
    gcongr
  · simp only [RunResult.out]
    rw [loopReports, List.range_succ, List.map_append, List.map_cons, List.map_nil,
      List.getLast?_concat]
    have hne : (((f0 :: rest).length : Nat) : ℚ) ≠ 0 := ne_of_gt htQ
    have harg : ((0 + rest.length + 1 : Nat) : ℚ) = (((f0 :: rest).length : Nat) : ℚ) := by
      push_cast [List.length_cons]
      ring
    rw [harg, div_self hne, one_mul, fmt2_100]

theorem claim8_witness :
    pfOk (f8 0) = some (f8 0) ∧
    ((process_video pfOk pfOk ([f8 0, f8 1] : List Frame).length
        [f8 0, f8 1]).out.reports).Pairwise (· ≤ ·) ∧
    (process_video pfOk pfOk ([f8 0, f8 1] : List Frame).length
        [f8 0, f8 1]).out.reports.getLast? = some 100 :=
  ⟨rfl, (claim8_progress pfOk pfOk (f8 0) (f8 0) [f8 1] rfl).1,
   (claim8_progress pfOk pfOk (f8 0) (f8 0) [f8 1] rfl).2⟩

/-! ### C9 -/

/-- C9: after a successful probe the capture cursor (advanced to 1 by the
probe read) is reset to position 0 by line 79, so the probed frame is read
again as the first frame of the first normal batch; every written frame is
recomputed by the batch transform, and the probe's carved result is never
reused — two runs differing only in the probe's carve output coincide. -/
theorem claim9_rewind (pf probe probe' : Frame → Option Frame) (total : Nat)
    (ht : total ≠ 0) (f0 c0 c0' : Frame) (rest : List Frame)
    (hp : probe f0 = some c0) (hp' : probe' f0 = some c0') :
    (Capture.read ⟨f0 :: rest, 0⟩) = (some f0, ⟨f0 :: rest, 1⟩) ∧
    (Capture.seek ⟨f0 :: rest, 1⟩ 0).pos = 0 ∧
    (process_video pf probe total (f0 :: rest)).out.batches.join = f0 :: rest ∧
    ((process_video pf probe total (f0 :: rest)).out.batches.head?.bind List.head?) =
      some f0 ∧
    (process_video pf probe total (f0 :: rest)).out.written =
      ((process_video pf probe total (f0 :: rest)).out.batches.map (batchWrites pf)).join ∧
    process_video pf probe total (f0 :: rest) =
      process_video pf probe' total (f0 :: rest) := by
  rw [process_video_eq_done pf probe total ht f0 c0 rest hp,
    process_video_eq_done pf probe' total ht f0 c0' rest hp']
  refine ⟨?_, rfl, ?_, ?_, rfl, rfl⟩
  · simp [Capture.read]
  · simp [RunResult.out, driverBatches_join]
  · simp only [RunResult.out]
    rw [show driverBatches (f0 :: rest) [] = driverBatches rest [f0] from by
      rw [driverBatches, if_neg (by simp), List.nil_append]]
    exact driverBatches_first rest f0 []

/-- A probe carve returning a different result than the batch transform,
for the C9 witness. -/
def probeOther : Frame → Option Frame := fun _ => some (f8 9)

theorem claim9_witness :
    (2 : Nat) ≠ 0 ∧ pfOk (f8 0) = some (f8 0) ∧ probeOther (f8 0) = some (f8 9) ∧
    ((process_video pfOk pfOk 2 [f8 0, f8 1]).out.batches.head?.bind List.head?) =
      some (f8 0) ∧
    process_video pfOk pfOk 2 [f8 0, f8 1] =
      process_video pfOk probeOther 2 [f8 0, f8 1] :=
  ⟨by norm_num, rfl, rfl,
   (claim9_rewind pfOk pfOk probeOther 2 (by norm_num) (f8 0) (f8 0) (f8 9)
      [f8 1] rfl rfl).2.2.2.1,
   (claim9_rewind pfOk pfOk probeOther 2 (by norm_num) (f8 0) (f8 0) (f8 9)
      [f8 1] rfl rfl).2.2.2.2.2⟩

/-! ### C10 -/

/-- C10: the final statistics computation never divides by zero — the
average FPS is 0 when the elapsed time is 0, the average SPF is 0 when no
frame was written — and the count it uses is exactly the number of frames
written to the sink (failed frames are not counted). -/
theorem claim10_stats (pf probe : Frame → Option Frame) (total : Nat)
    (t : ℚ) (ht : total ≠ 0) (f0 c0 : Frame) (rest : List Frame)
    (hp : probe f0 = some c0) :
    (process_video pf probe total (f0 :: rest)).out.totalProcessed =
      (process_video pf probe total (f0 :: rest)).out.written.length ∧
    (t = 0 →
      (runStats (process_video pf probe total (f0 :: rest)).out.totalProcessed t).1 = 0) ∧
    ((process_video pf probe total (f0 :: rest)).out.written.length = 0 →
      (runStats (process_video pf probe total (f0 :: rest)).out.totalProcessed t).2 = 0) := by
  rw [process_video_eq_done pf probe total ht f0 c0 rest hp]
  refine ⟨rfl, ?_, ?_⟩
  · intro h0
    subst h0
    simp [runStats]
  · intro hw
    simp only [RunResult.out] at hw ⊢
    simp [runStats, hw]

/-- A transform that fails on every frame, for the C10 witness. -/
def pfFail : Frame → Option Frame := fun _ => none

theorem claim10_witness :
    (1 : Nat) ≠ 0 ∧ pfOk (f8 0) = some (f8 0) ∧
    (process_video pfFail pfOk 1 [f8 0]).out.totalProcessed =
      (process_video pfFail pfOk 1 [f8 0]).out.written.length ∧
    (runStats (process_video pfFail pfOk 1 [f8 0]).out.totalProcessed 0).1 = 0 ∧
    (runStats (process_video pfFail pfOk 1 [f8 0]).out.totalProcessed 0).2 = 0 :=
  ⟨by norm_num, rfl,
   (claim10_stats pfFail pfOk 1 0 (by norm_num) (f8 0) (f8 0) [] rfl).1,
   (claim10_stats pfFail pfOk 1 0 (by norm_num) (f8 0) (f8 0) [] rfl).2.1 rfl,
   (claim10_stats pfFail pfOk 1 0 (by norm_num) (f8 0) (f8 0) [] rfl).2.2
     (by rw [process_video_eq_done pfFail pfOk 1 (by norm_num) (f8 0) (f8 0) [] rfl]
         rfl)⟩

end ContentAwareScale
